import Mathlib

/-! # Membership reconciliation of the project/user API server (`main.go`)

A shallow embedding of the handler `updateUserProject` and of its three helpers
`checkProject`, `checkUsers` and `updateUser`.

The process-wide database handle `DB` of the Go program becomes an explicit value
of type `Store` that every function receives and, when it writes, returns.
The object-relational mapper and the relational database behind it are external
collaborators: the three calls the flow makes on them (`Where(..).First(..)`,
`RecordNotFound()` and `Create(..)`) are modelled on tables that are lists of rows.
Go's `int` is `Int`; no arithmetic is performed on identifiers or status codes.
-/

set_option linter.dupNamespace false
set_option linter.unusedVariables false

namespace Portyard

/-! ## Data model -/

/-- Rows of table `users` (`type User struct`, main.go:17-29). The creation and
update timestamps and the preloaded associations `Emails` and `Projects` are read by
nothing in the membership flow and are left out; field `Type` is spelled `UserType`. -/
structure User where
  ID : Int
  UserName : String
  UserType : String
  Name : String
  Active : Bool
  DeletedAt : Option Nat
deriving DecidableEq, Repr

/-- Rows of table `projects` (`type Project struct`, main.go:40-46), without the
creation timestamp and the preloaded `Components`. -/
structure Project where
  ID : Int
  Author : String
  ProjectName : String
deriving DecidableEq, Repr

/-- Rows of the association table `user_projects` (`type UserProjects struct`,
main.go:65-68). -/
structure UserProjects where
  UserID : Int
  ProjectID : Int
deriving DecidableEq, Repr

/-- One element of the request's `members` array (the anonymous struct of
main.go:72-74). -/
structure Member where
  Key : String
deriving DecidableEq, Repr

/-- Decoded request body (`type Members struct`, main.go:71-75). -/
structure Members where
  Members : List Member
deriving DecidableEq, Repr

/-- Response body (`type StatusMessage struct`, main.go:78-81); both fields carry
`omitempty`, so an empty string is a field absent from the JSON rendering. -/
structure StatusMessage where
  Error : String := ""
  Success : String := ""
deriving DecidableEq, Repr

/-- Go zero value `User{}`. -/
def User.zero : User :=
  { ID := 0, UserName := "", UserType := "", Name := "", Active := false, DeletedAt := none }

/-- Go zero value `Project{}`. -/
def Project.zero : Project :=
  { ID := 0, Author := "", ProjectName := "" }

/-! ## The persistent store -/

/-- State of the database behind the handle `DB`: the three tables the flow touches,
and a trace `created` of every row handed to `Create`, in call order, whether the
insert succeeded or not. The trace is a ghost field: no function reads it. -/
structure Store where
  users : List User
  projects : List Project
  user_projects : List UserProjects
  created : List UserProjects := []
deriving DecidableEq, Repr

/-- Errors a store insert can report. -/
inductive DBError where
  | uniqueViolation
deriving DecidableEq, Repr

/-- Row of least `key` in `rows`, the earliest of them when several share it: what
`ORDER BY id LIMIT 1` selects. -/
def firstBy {α : Type} (key : α → Int) : List α → Option α
  | [] => none
  | r :: rs =>
    match firstBy key rs with
    | none => some r
    | some b => if key b < key r then some b else some r

/-- Modelled from the spec: the mapper's `DB.Where(cond).First(&dest)` followed by
`.RecordNotFound()`, a point lookup of the external store (spec section 6). The row
of least primary key satisfying `cond` is copied into `dest`; when no row matches,
`dest` is left as it was and the second component, `RecordNotFound()`, is `true`. -/
def First {α : Type} (key : α → Int) (rows : List α) (cond : α → Bool) (dest : α) : α × Bool :=
  match firstBy key (rows.filter cond) with
  | some r => (r, false)
  | none => (dest, true)

/-- Condition of the user lookup, `user_name = ?`; the mapper adds `deleted_at IS NULL`
for a struct that has a `DeletedAt` field (soft delete). -/
def userNamed (name : String) (r : User) : Bool :=
  r.DeletedAt.isNone && r.UserName == name

/-- Condition of the project lookup, `project_name = ?`. -/
def projectNamed (name : String) (r : Project) : Bool :=
  r.ProjectName == name

/-- Modelled from the spec: `DB.Create(newAssociation).Error`, the insert of the external
store into the association table, whose uniqueness constraint on (userID, projectID)
makes the insert of an already-existing pair fail (spec sections 4.2 and 6). A failed
insert leaves the table as it was; a successful one adds the row. Every call is
recorded in the trace. -/
def Create (DB : Store) (row : UserProjects) : Store × Option DBError :=
  if row ∈ DB.user_projects then
    ({ DB with created := DB.created ++ [row] }, some DBError.uniqueViolation)
  else
    ({ DB with user_projects := DB.user_projects ++ [row], created := DB.created ++ [row] }, none)

/-! ## The four functions of the flow -/

/-- Text of the 400 response, shared by `updateUser` and `updateUserProject`
(main.go:253 and main.go:273). -/
def invalidRequest : String :=
  "Request body invalid, a user supplied is already a member of that project or a user supplied does not exist"

/-- Embedding of `checkProject` (main.go:279-292). -/
def checkProject (DB : Store) (p : String) : Bool × Int :=
  let project := Project.zero
  let found := First Project.ID DB.projects (projectNamed p) project
  let project := found.1
  let projects := if found.2 then false else true
  (projects, project.ID)

/-- Variables of `checkUsers` that live across iterations of its loop. -/
structure CheckUsersVars where
  user : User
  userExists : Bool
  userList : List Int
deriving DecidableEq, Repr

/-- Body of the loop of `checkUsers` (main.go:300-308) for one element `obj`. The
diagnostic line printed on standard output for a missing user is not modelled. -/
def checkUsersBody (DB : Store) (s : CheckUsersVars) (obj : Member) : CheckUsersVars :=
  let found := First User.ID DB.users (userNamed obj.Key) s.user
  let user := found.1
  let userExists := if found.2 then false else s.userExists
  let userList := s.userList ++ [user.ID]
  { user := User.zero, userExists := userExists, userList := userList }

/-- Embedding of `checkUsers` (main.go:294-310). -/
def checkUsers (DB : Store) (u : Members) : Bool × List Int :=
  let s := u.Members.foldl (checkUsersBody DB)
    { user := User.zero, userExists := true, userList := [] }
  (s.userExists, s.userList)

/-- Body of the loop of `updateUser` (main.go:264-270): the insert is attempted and
its error overwrites `results`. -/
def updateUserBody (pID : Int) (s : Store × Option DBError) (user : Int) :
    Store × Option DBError :=
  let newAssociation : UserProjects := { UserID := user, ProjectID := pID }
  Create s.1 newAssociation

/-- Embedding of `updateUser` (main.go:260-277); parameter `users` is unused there too. -/
def updateUser (DB : Store) (users : Members) (pID : Int) (uIDs : List Int) :
    Store × Int × StatusMessage :=
  let s := uIDs.foldl (updateUserBody pID) (DB, none)
  if s.2.isSome then
    (s.1, 400, { Error := invalidRequest })
  else
    (s.1, 200, { Success := "Added to project" })

/-- Embedding of `updateUserProject` (main.go:234-258). Argument `body` is the outcome
of `json.Unmarshal` of the request body: `none` when decoding reported an error, in
which case the handler panics (result `none`); otherwise the result is the store after
the request together with the status and body passed to `c.JSON`. -/
def updateUserProject (DB : Store) (body : Option Members) (projectName : String) :
    Option (Store × Int × StatusMessage) :=
  match body with
  | none => none
  | some userData =>
    let project := checkProject DB projectName
    let projectExists := project.1
    let pID := project.2
    let usersFound := checkUsers DB userData
    let userExists := usersFound.1
    let uIDs := usersFound.2
    if projectExists && userExists then
      some (updateUser DB userData pID uIDs)
    else if !userExists then
      some (DB, 400, { Error := invalidRequest })
    else
      some (DB, 404, { Error := "Project does not exist" })

/-! ## Sample stores -/

/-- A store with project "alpha" (id 1) and users "bob" (id 7) and "alice" (id 8),
nobody being a member yet. -/
def sampleStore : Store :=
  { users := [
      { ID := 7, UserName := "bob", UserType := "dev", Name := "Bob", Active := true, DeletedAt := none },
      { ID := 8, UserName := "alice", UserType := "dev", Name := "Alice", Active := true, DeletedAt := none }],
    projects := [{ ID := 1, Author := "bob", ProjectName := "alpha" }],
    user_projects := [] }

/-- The sample store in which "bob" is already a member of "alpha". -/
def sampleStoreBobMember : Store :=
  { sampleStore with user_projects := [{ UserID := 7, ProjectID := 1 }] }

/-! ## Specification-level views of the store -/

/-- An existing user: a row of `users` that is not soft-deleted. -/
def existingUser (DB : Store) (name : String) (r : User) : Prop :=
  r ∈ DB.users ∧ r.DeletedAt = none ∧ r.UserName = name

/-- The user row a lookup by `name` selects, if any. -/
def findUser (DB : Store) (name : String) : Option User :=
  firstBy User.ID (DB.users.filter (userNamed name))

/-- Identifier `checkUsers` records for `name`: the selected row's, or the zero
identifier. -/
def userID (DB : Store) (name : String) : Int :=
  match findUser DB name with
  | some r => r.ID
  | none => 0

/-- The association row `updateUser` builds for user `u` and project `pID`. -/
def association (pID : Int) (u : Int) : UserProjects :=
  { UserID := u, ProjectID := pID }

/-! ## Lemmas on the store operations -/

theorem firstBy_eq_none {α : Type} (key : α → Int) (l : List α) :
    firstBy key l = none ↔ l = [] := by
  cases l with
  | nil => simp [firstBy]
  | cons r rs =>
    simp only [firstBy]
    cases firstBy key rs with
    | none => simp
    | some b => by_cases h : key b < key r <;> simp [h]

theorem firstBy_mem {α : Type} (key : α → Int) (l : List α) (r : α)
    (h : firstBy key l = some r) : r ∈ l := by
  induction l generalizing r with
  | nil => simp [firstBy] at h
  | cons a rs ih =>
    simp only [firstBy] at h
    cases hrs : firstBy key rs with
    | none =>
      rw [hrs] at h
      simp only [Option.some.injEq] at h
      simp [h]
    | some b =>
      rw [hrs] at h
      by_cases hk : key b < key a
      · simp only [hk, if_true, Option.some.injEq] at h
        subst h
        exact List.mem_cons_of_mem _ (ih b hrs)
      · simp only [hk, if_false, Option.some.injEq] at h
        simp [h]

theorem firstBy_le {α : Type} (key : α → Int) (l : List α) (r : α)
    (h : firstBy key l = some r) : ∀ x ∈ l, key r ≤ key x := by
  induction l generalizing r with
  | nil => simp
  | cons a rs ih =>
    intro x hx
    simp only [firstBy] at h
    cases hrs : firstBy key rs with
    | none =>
      rw [hrs] at h
      simp only [Option.some.injEq] at h
      have hnil : rs = [] := (firstBy_eq_none key rs).1 hrs
      subst hnil
      subst h
      simp only [List.mem_singleton] at hx
      subst hx
      exact le_refl _
    | some b =>
      rw [hrs] at h
      have hb := ih b hrs
      by_cases hk : key b < key a
      · simp only [hk, if_true, Option.some.injEq] at h
        subst h
        rcases List.mem_cons.1 hx with hxa | hxr
        · subst hxa
          exact le_of_lt hk
        · exact hb x hxr
      · simp only [hk, if_false, Option.some.injEq] at h
        subst h
        rcases List.mem_cons.1 hx with hxa | hxr
        · subst hxa
          exact le_refl _
        · exact le_trans (not_lt.1 hk) (hb x hxr)

theorem userNamed_iff (name : String) (r : User) :
    userNamed name r = true ↔ r.DeletedAt = none ∧ r.UserName = name := by
  simp [userNamed, Option.isNone_iff_eq_none]

theorem projectNamed_iff (name : String) (r : Project) :
    projectNamed name r = true ↔ r.ProjectName = name := by
  simp [projectNamed]

theorem findUser_some (DB : Store) (name : String) (r : User) (h : findUser DB name = some r) :
    existingUser DB name r ∧ ∀ x, existingUser DB name x → r.ID ≤ x.ID := by
  unfold findUser at h
  have hm := firstBy_mem _ _ _ h
  rw [List.mem_filter, userNamed_iff] at hm
  refine ⟨hm, ?_⟩
  intro x hx
  apply firstBy_le _ _ _ h
  rw [List.mem_filter, userNamed_iff]
  exact hx

theorem findUser_none (DB : Store) (name : String) :
    findUser DB name = none ↔ ¬ ∃ r, existingUser DB name r := by
  unfold findUser existingUser
  rw [firstBy_eq_none, List.filter_eq_nil_iff]
  constructor
  · rintro h ⟨r, hr, hx⟩
    exact h r hr ((userNamed_iff name r).2 hx)
  · intro h r hr hx
    exact h ⟨r, hr, (userNamed_iff name r).1 hx⟩

theorem findUser_isSome (DB : Store) (name : String) :
    (findUser DB name).isSome = true ↔ ∃ r, existingUser DB name r := by
  cases h : findUser DB name with
  | none =>
    have := (findUser_none DB name).1 h
    simp [this]
  | some r =>
    simp only [Option.isSome_some, true_iff]
    exact ⟨r, (findUser_some DB name r h).1⟩

/-! ## Lemmas on `checkProject` and `checkUsers` -/

theorem First_users_zero (DB : Store) (name : String) :
    First User.ID DB.users (userNamed name) User.zero =
      match findUser DB name with
      | some r => (r, false)
      | none => (User.zero, true) := by
  unfold First findUser
  cases firstBy User.ID (DB.users.filter (userNamed name)) <;> rfl

theorem checkUsersBody_zero (DB : Store) (s : CheckUsersVars) (obj : Member)
    (h : s.user = User.zero) :
    checkUsersBody DB s obj =
      { user := User.zero,
        userExists := s.userExists && (findUser DB obj.Key).isSome,
        userList := s.userList ++ [userID DB obj.Key] } := by
  unfold checkUsersBody userID
  rw [h, First_users_zero]
  cases findUser DB obj.Key with
  | none => simp [User.zero]
  | some r => simp

theorem checkUsers_foldl (DB : Store) (l : List Member) (s : CheckUsersVars)
    (h : s.user = User.zero) :
    l.foldl (checkUsersBody DB) s =
      { user := User.zero,
        userExists := s.userExists && l.all (fun m => (findUser DB m.Key).isSome),
        userList := s.userList ++ l.map (fun m => userID DB m.Key) } := by
  induction l generalizing s with
  | nil =>
    cases s
    simp only at h
    subst h
    simp
  | cons m ms ih =>
    rw [List.foldl_cons, checkUsersBody_zero DB s m h, ih _ rfl]
    simp [Bool.and_assoc]

theorem checkUsers_eq (DB : Store) (u : Members) :
    checkUsers DB u =
      (u.Members.all (fun m => (findUser DB m.Key).isSome),
        u.Members.map (fun m => userID DB m.Key)) := by
  unfold checkUsers
  rw [checkUsers_foldl DB u.Members _ rfl]
  simp

theorem checkUsers_fst_iff (DB : Store) (u : Members) :
    (checkUsers DB u).1 = true ↔ ∀ m ∈ u.Members, ∃ r, existingUser DB m.Key r := by
  rw [checkUsers_eq]
  simp only [List.all_eq_true]
  constructor
  · intro h m hm
    exact (findUser_isSome DB m.Key).1 (h m hm)
  · intro h m hm
    exact (findUser_isSome DB m.Key).2 (h m hm)

theorem userID_of_missing (DB : Store) (name : String)
    (h : ¬ ∃ r, existingUser DB name r) : userID DB name = 0 := by
  unfold userID
  rw [(findUser_none DB name).2 h]

theorem userID_of_existing (DB : Store) (name : String)
    (h : ∃ r, existingUser DB name r) :
    ∃ r, existingUser DB name r ∧ (∀ x, existingUser DB name x → r.ID ≤ x.ID) ∧
      userID DB name = r.ID := by
  cases hf : findUser DB name with
  | none => exact absurd h ((findUser_none DB name).1 hf)
  | some r =>
    have hr := findUser_some DB name r hf
    refine ⟨r, hr.1, hr.2, ?_⟩
    unfold userID
    rw [hf]

theorem checkProject_found (DB : Store) (p : String)
    (h : ∃ r ∈ DB.projects, r.ProjectName = p) :
    ∃ r ∈ DB.projects, r.ProjectName = p ∧
      (∀ x ∈ DB.projects, x.ProjectName = p → r.ID ≤ x.ID) ∧
      checkProject DB p = (true, r.ID) := by
  cases hf : firstBy Project.ID (DB.projects.filter (projectNamed p)) with
  | none =>
    obtain ⟨r, hr, hn⟩ := h
    have hnil := (firstBy_eq_none _ _).1 hf
    have : r ∈ DB.projects.filter (projectNamed p) :=
      List.mem_filter.2 ⟨hr, (projectNamed_iff p r).2 hn⟩
    rw [hnil] at this
    simp at this
  | some r =>
    have hm := firstBy_mem _ _ _ hf
    rw [List.mem_filter, projectNamed_iff] at hm
    refine ⟨r, hm.1, hm.2, ?_, ?_⟩
    · intro x hx hxn
      exact firstBy_le _ _ _ hf x (List.mem_filter.2 ⟨hx, (projectNamed_iff p x).2 hxn⟩)
    · simp [checkProject, First, hf]

theorem checkProject_missing (DB : Store) (p : String)
    (h : ¬ ∃ r ∈ DB.projects, r.ProjectName = p) :
    checkProject DB p = (false, 0) := by
  have hnil : DB.projects.filter (projectNamed p) = [] := by
    rw [List.filter_eq_nil_iff]
    intro r hr hn
    exact h ⟨r, hr, (projectNamed_iff p r).1 hn⟩
  simp [checkProject, First, hnil, firstBy, Project.zero]

/-! ## Claims on the entity resolver -/

/-- C1: `checkUsers` returns `true` exactly when every username of the request names an
existing user of the store. In particular it returns `true` for the empty list and
`false` whenever some username, at whatever position, names no existing user. -/
theorem checkUsers_allExist_iff (DB : Store) (u : Members) :
    ((checkUsers DB u).1 = true ↔
      ∀ m ∈ u.Members, ∃ r ∈ DB.users, r.DeletedAt = none ∧ r.UserName = m.Key) ∧
    (checkUsers DB { Members := [] }).1 = true ∧
    (∀ (before after : List Member) (m : Member),
      (¬ ∃ r ∈ DB.users, r.DeletedAt = none ∧ r.UserName = m.Key) →
      (checkUsers DB { Members := before ++ m :: after }).1 = false) := by
  refine ⟨checkUsers_fst_iff DB u, rfl, ?_⟩
  intro before after m hm
  rw [Bool.eq_false_iff]
  intro ht
  exact hm ((checkUsers_fst_iff DB _).1 ht m (by simp))

/-- C2: the identifier list of `checkUsers` has the length of the username list, and at
every position it holds the identifier of the existing user row selected for that
username (the one of least identifier), or 0 when no existing user has that
username, whatever the lookups at the other positions gave. -/
theorem checkUsers_ids_positional (DB : Store) (u : Members) :
    (checkUsers DB u).2.length = u.Members.length ∧
    ∀ (i : Nat) (m : Member), u.Members[i]? = some m →
      ((∃ r ∈ DB.users, r.DeletedAt = none ∧ r.UserName = m.Key) →
        ∃ r ∈ DB.users, (r.DeletedAt = none ∧ r.UserName = m.Key) ∧
          (∀ x ∈ DB.users, x.DeletedAt = none ∧ x.UserName = m.Key → r.ID ≤ x.ID) ∧
          (checkUsers DB u).2[i]? = some r.ID) ∧
      ((¬ ∃ r ∈ DB.users, r.DeletedAt = none ∧ r.UserName = m.Key) →
        (checkUsers DB u).2[i]? = some 0) := by
  rw [checkUsers_eq]
  refine ⟨by simp, ?_⟩
  intro i m hi
  have hget : (u.Members.map (fun m => userID DB m.Key))[i]? = some (userID DB m.Key) := by
    rw [List.getElem?_map, hi]
    rfl
  constructor
  · intro hex
    obtain ⟨r, hr, hmin, hid⟩ := userID_of_existing DB m.Key hex
    refine ⟨r, hr.1, hr.2, ?_, ?_⟩
    · intro x hx hxn
      exact hmin x ⟨hx, hxn⟩
    · simp only [hget, hid]
  · intro hmiss
    simp only [hget, userID_of_missing DB m.Key hmiss]

/-- C3: `checkProject` returns `(true, id)` with `id` the identifier of a stored project
of exactly that name (the one of least identifier, hence the project's own identifier
when a single project has the name), and `(false, 0)` when no project has that name.
It is a total function: absence is a result, not a failure. -/
theorem checkProject_result (DB : Store) (p : String) :
    ((∃ r ∈ DB.projects, r.ProjectName = p) →
      ∃ r ∈ DB.projects, r.ProjectName = p ∧
        (∀ x ∈ DB.projects, x.ProjectName = p → r.ID ≤ x.ID) ∧
        checkProject DB p = (true, r.ID)) ∧
    (∀ r ∈ DB.projects, r.ProjectName = p →
      (∀ x ∈ DB.projects, x.ProjectName = p → x = r) → checkProject DB p = (true, r.ID)) ∧
    ((¬ ∃ r ∈ DB.projects, r.ProjectName = p) → checkProject DB p = (false, 0)) := by
  refine ⟨checkProject_found DB p, ?_, checkProject_missing DB p⟩
  intro r hr hn huniq
  obtain ⟨r', hr', hn', -, hres⟩ := checkProject_found DB p ⟨r, hr, hn⟩
  rw [hres, huniq r' hr' hn']

/-! ## Lemmas on `Create` and on the loop of `updateUser` -/

theorem Create_users (DB : Store) (row : UserProjects) :
    (Create DB row).1.users = DB.users ∧ (Create DB row).1.projects = DB.projects := by
  unfold Create
  split <;> simp

theorem Create_created (DB : Store) (row : UserProjects) :
    (Create DB row).1.created = DB.created ++ [row] := by
  unfold Create
  split <;> simp

theorem Create_error_iff (DB : Store) (row : UserProjects) :
    (Create DB row).2.isSome = true ↔ row ∈ DB.user_projects := by
  unfold Create
  split <;> simp [*]

theorem Create_present (DB : Store) (row : UserProjects) (h : row ∈ DB.user_projects) :
    (Create DB row).1.user_projects = DB.user_projects := by
  unfold Create
  rw [if_pos h]

theorem Create_absent (DB : Store) (row : UserProjects) (h : row ∉ DB.user_projects) :
    Create DB row =
      ({ DB with user_projects := DB.user_projects ++ [row], created := DB.created ++ [row] },
        none) := by
  unfold Create
  rw [if_neg h]

theorem Create_mem (DB : Store) (row r : UserProjects) :
    r ∈ (Create DB row).1.user_projects ↔ r ∈ DB.user_projects ∨ r = row := by
  by_cases h : row ∈ DB.user_projects
  · rw [Create_present DB row h]
    constructor
    · exact Or.inl
    · rintro (h1 | h1)
      · exact h1
      · rw [h1]; exact h
  · rw [Create_absent DB row h]
    simp

theorem Create_nodup (DB : Store) (row : UserProjects) (h : DB.user_projects.Nodup) :
    (Create DB row).1.user_projects.Nodup := by
  by_cases hr : row ∈ DB.user_projects
  · rw [Create_present DB row hr]
    exact h
  · rw [Create_absent DB row hr]
    simp only
    rw [List.nodup_append]
    refine ⟨h, List.nodup_singleton row, ?_⟩
    intro a ha hb
    rw [List.mem_singleton] at hb
    subst hb
    exact hr ha

theorem updateUserBody_eq (pID : Int) (s : Store × Option DBError) (user : Int) :
    updateUserBody pID s user = Create s.1 (association pID user) := rfl

theorem loop_users (pID : Int) (uIDs : List Int) (s : Store × Option DBError) :
    (uIDs.foldl (updateUserBody pID) s).1.users = s.1.users ∧
      (uIDs.foldl (updateUserBody pID) s).1.projects = s.1.projects := by
  induction uIDs generalizing s with
  | nil => simp
  | cons u us ih =>
    rw [List.foldl_cons]
    obtain ⟨h1, h2⟩ := ih (updateUserBody pID s u)
    rw [h1, h2, updateUserBody_eq]
    exact Create_users s.1 _

theorem loop_created (pID : Int) (uIDs : List Int) (s : Store × Option DBError) :
    (uIDs.foldl (updateUserBody pID) s).1.created =
      s.1.created ++ uIDs.map (association pID) := by
  induction uIDs generalizing s with
  | nil => simp
  | cons u us ih =>
    rw [List.foldl_cons, ih, updateUserBody_eq, Create_created]
    simp

theorem loop_mem (pID : Int) (uIDs : List Int) (s : Store × Option DBError) (r : UserProjects) :
    r ∈ (uIDs.foldl (updateUserBody pID) s).1.user_projects ↔
      r ∈ s.1.user_projects ∨ r ∈ uIDs.map (association pID) := by
  induction uIDs generalizing s with
  | nil => simp
  | cons u us ih =>
    rw [List.foldl_cons, ih, updateUserBody_eq, Create_mem]
    simp only [List.map_cons, List.mem_cons]
    tauto

theorem loop_nodup (pID : Int) (uIDs : List Int) (s : Store × Option DBError)
    (h : s.1.user_projects.Nodup) :
    (uIDs.foldl (updateUserBody pID) s).1.user_projects.Nodup := by
  induction uIDs generalizing s with
  | nil => exact h
  | cons u us ih =>
    rw [List.foldl_cons]
    apply ih
    rw [updateUserBody_eq]
    exact Create_nodup s.1 _ h

theorem loop_added (pID : Int) (uIDs : List Int) (s : Store × Option DBError) :
    ∃ added : List UserProjects,
      (uIDs.foldl (updateUserBody pID) s).1.user_projects = s.1.user_projects ++ added ∧
      added.Nodup ∧
      ∀ r, r ∈ added ↔ r ∉ s.1.user_projects ∧ r ∈ uIDs.map (association pID) := by
  induction uIDs generalizing s with
  | nil => exact ⟨[], by simp, List.nodup_nil, by simp⟩
  | cons u us ih =>
    rw [List.foldl_cons, updateUserBody_eq]
    by_cases hu : association pID u ∈ s.1.user_projects
    · obtain ⟨added, heq, hnd, hmem⟩ := ih (Create s.1 (association pID u))
      rw [Create_present s.1 _ hu] at heq hmem
      refine ⟨added, heq, hnd, ?_⟩
      intro r
      rw [hmem r, List.map_cons, List.mem_cons]
      constructor
      · rintro ⟨h1, h2⟩
        exact ⟨h1, Or.inr h2⟩
      · rintro ⟨h1, h2 | h2⟩
        · rw [h2] at h1
          exact absurd hu h1
        · exact ⟨h1, h2⟩
    · rw [Create_absent s.1 _ hu]
      obtain ⟨added, heq, hnd, hmem⟩ := ih
        ({ s.1 with
            user_projects := s.1.user_projects ++ [association pID u],
            created := s.1.created ++ [association pID u] }, none)
      simp only at heq hmem
      refine ⟨association pID u :: added, ?_, ?_, ?_⟩
      · rw [heq]
        simp
      · rw [List.nodup_cons]
        refine ⟨?_, hnd⟩
        intro hin
        exact ((hmem _).1 hin).1 (by simp)
      · intro r
        rw [List.mem_cons, hmem r, List.map_cons, List.mem_cons, List.mem_append,
          List.mem_singleton]
        by_cases hr : r = association pID u
        · subst hr
          simp [hu]
        · simp [hr]

theorem loop_fresh (pID : Int) (uIDs : List Int) (s : Store × Option DBError)
    (hnd : uIDs.Nodup) (hfresh : ∀ u ∈ uIDs, association pID u ∉ s.1.user_projects) :
    uIDs.foldl (updateUserBody pID) s =
      ({ s.1 with
          user_projects := s.1.user_projects ++ uIDs.map (association pID),
          created := s.1.created ++ uIDs.map (association pID) },
        if uIDs = [] then s.2 else none) := by
  induction uIDs generalizing s with
  | nil => simp
  | cons u us ih =>
    have hu : association pID u ∉ s.1.user_projects := hfresh u (by simp)
    rw [List.nodup_cons] at hnd
    rw [List.foldl_cons, updateUserBody_eq, Create_absent s.1 _ hu, ih _ hnd.2]
    · by_cases hus : us = [] <;> simp [hus]
    · intro v hv
      simp only [List.mem_append, List.mem_singleton, not_or]
      refine ⟨hfresh v (List.mem_cons_of_mem _ hv), ?_⟩
      intro heq
      have : v = u := by
        have := congrArg UserProjects.UserID heq
        simpa [association] using this
      subst this
      exact hnd.1 hv

theorem updateUser_store (DB : Store) (users : Members) (pID : Int) (uIDs : List Int) :
    (updateUser DB users pID uIDs).1 = (uIDs.foldl (updateUserBody pID) (DB, none)).1 := by
  unfold updateUser
  simp only
  split <;> rfl

theorem updateUser_response (DB : Store) (users : Members) (pID : Int) (uIDs : List Int) :
    (updateUser DB users pID uIDs).2 =
      if (uIDs.foldl (updateUserBody pID) (DB, none)).2.isSome then
        (400, { Error := invalidRequest })
      else
        (200, { Success := "Added to project" }) := by
  unfold updateUser
  simp only
  split <;> rfl

theorem updateUserProject_decoded (DB : Store) (m : Members) (name : String) :
    updateUserProject DB (some m) name =
      if ((checkProject DB name).1 && (checkUsers DB m).1) = true then
        some (updateUser DB m (checkProject DB name).2 (checkUsers DB m).2)
      else if (!(checkUsers DB m).1) = true then
        some (DB, 400, { Error := invalidRequest })
      else
        some (DB, 404, { Error := "Project does not exist" }) := rfl

theorem association_mem_map (pID : Int) (uIDs : List Int) (u : Int) :
    association pID u ∈ uIDs.map (association pID) ↔ u ∈ uIDs := by
  rw [List.mem_map]
  constructor
  · rintro ⟨v, hv, heq⟩
    have : v = u := by
      have := congrArg UserProjects.UserID heq
      simpa [association] using this
    rw [← this]
    exact hv
  · intro hu
    exact ⟨u, hu, rfl⟩

/-! ## Claims on the membership reconciler -/

/-- C4: the status of `updateUser` is that of the last insert only. For the empty list
it is 200 with "Added to project"; for a list `init ++ [last]` it is 400 with the
generic invalid-request error exactly when the insert of `(last, pID)`, made on the
store the inserts of `init` left, fails, and 200 with "Added to project" otherwise,
whatever the earlier inserts did. That last insert fails exactly when the pair was in
the table at the start or `last` already occurs in `init`. -/
theorem updateUser_status_of_last_insert (DB : Store) (users : Members) (pID : Int) :
    (updateUser DB users pID []).2 = (200, { Success := "Added to project" }) ∧
    (∀ (init : List Int) (last : Int),
      (updateUser DB users pID (init ++ [last])).2 =
        if (Create (updateUser DB users pID init).1
            { UserID := last, ProjectID := pID }).2.isSome = true then
          (400, { Error := invalidRequest })
        else
          (200, { Success := "Added to project" })) ∧
    (∀ (init : List Int) (last : Int),
      (updateUser DB users pID (init ++ [last])).2.1 = 400 ↔
        ({ UserID := last, ProjectID := pID } ∈ DB.user_projects ∨ last ∈ init)) := by
  have hstep : ∀ (init : List Int) (last : Int),
      (updateUser DB users pID (init ++ [last])).2 =
        if (Create (updateUser DB users pID init).1 (association pID last)).2.isSome = true then
          (400, { Error := invalidRequest })
        else
          (200, { Success := "Added to project" }) := by
    intro init last
    rw [updateUser_response, updateUser_store, List.foldl_append]
    rfl
  refine ⟨rfl, hstep, ?_⟩
  intro init last
  have hiff : (Create (updateUser DB users pID init).1 (association pID last)).2.isSome = true ↔
      (association pID last ∈ DB.user_projects ∨ last ∈ init) := by
    rw [Create_error_iff, updateUser_store, loop_mem, association_mem_map]
  rw [hstep]
  by_cases h : (Create (updateUser DB users pID init).1 (association pID last)).2.isSome = true
  · rw [if_pos h]
    exact ⟨fun _ => hiff.1 h, fun _ => rfl⟩
  · rw [if_neg h]
    constructor
    · intro h200
      exact absurd h200 (by decide)
    · intro hmem
      exact absurd (hiff.2 hmem) h

/-- C5: with the insert failing exactly when its pair is already in the table,
`updateUser` hands every element of the list to the insert, in order and whatever the
earlier inserts returned, and removes nothing: the rows of the final table are those of
the initial table together with every pair `(u, pID)` for `u` in the list; precisely,
the final table is the initial one followed by the pairs of the list that were not in
it, each once; the other tables are untouched, whatever the status.
There is an input on which it returns 400 although the table has gained a row. -/
theorem updateUser_inserts_every_pair :
    (∀ (DB : Store) (row : UserProjects),
      (Create DB row).2.isSome = true ↔ row ∈ DB.user_projects) ∧
    (∀ (DB : Store) (users : Members) (pID : Int) (uIDs : List Int),
      (updateUser DB users pID uIDs).1.created =
        DB.created ++ uIDs.map (fun u => { UserID := u, ProjectID := pID }) ∧
      (∀ r : UserProjects, r ∈ (updateUser DB users pID uIDs).1.user_projects ↔
        r ∈ DB.user_projects ∨ ∃ u ∈ uIDs, r = { UserID := u, ProjectID := pID }) ∧
      (∃ added : List UserProjects,
        (updateUser DB users pID uIDs).1.user_projects = DB.user_projects ++ added ∧
        added.Nodup ∧
        ∀ r, r ∈ added ↔
          r ∉ DB.user_projects ∧ ∃ u ∈ uIDs, r = { UserID := u, ProjectID := pID }) ∧
      (updateUser DB users pID uIDs).1.users = DB.users ∧
      (updateUser DB users pID uIDs).1.projects = DB.projects) ∧
    (∃ (DB : Store) (users : Members) (pID : Int) (uIDs : List Int),
      (updateUser DB users pID uIDs).2.1 = 400 ∧
      DB.user_projects.length < (updateUser DB users pID uIDs).1.user_projects.length) := by
  refine ⟨Create_error_iff, ?_, ?_⟩
  · intro DB users pID uIDs
    have hpair : ∀ r : UserProjects, r ∈ uIDs.map (association pID) ↔
        ∃ u ∈ uIDs, r = { UserID := u, ProjectID := pID } := by
      intro r
      rw [List.mem_map]
      constructor
      · rintro ⟨u, hu, heq⟩
        exact ⟨u, hu, heq.symm⟩
      · rintro ⟨u, hu, heq⟩
        exact ⟨u, hu, heq.symm⟩
    rw [updateUser_store]
    refine ⟨loop_created pID uIDs (DB, none), ?_, ?_, loop_users pID uIDs (DB, none)⟩
    · intro r
      rw [loop_mem, hpair]
    · obtain ⟨added, heq, hnd, hmem⟩ := loop_added pID uIDs (DB, none)
      refine ⟨added, heq, hnd, ?_⟩
      intro r
      rw [hmem r, hpair]
  · exact ⟨sampleStoreBobMember, { Members := [] }, 1, [8, 7], by decide, by decide⟩

/-- C6: when no pair occurs twice in the association table, none does after `updateUser`
nor after a whole `updateUserProject` request (which always responds to a decoded
body), for every project, every list of user identifiers and every list of usernames,
repeated or already members; and the insert of a pair that is present leaves the table
as it was. -/
theorem user_projects_nodup_preserved (DB : Store) (h : DB.user_projects.Nodup) :
    (∀ (users : Members) (pID : Int) (uIDs : List Int),
      (updateUser DB users pID uIDs).1.user_projects.Nodup) ∧
    (∀ (m : Members) (name : String),
      ∃ out, updateUserProject DB (some m) name = some out ∧ out.1.user_projects.Nodup) ∧
    (∀ row ∈ DB.user_projects, (Create DB row).1.user_projects = DB.user_projects) := by
  refine ⟨?_, ?_, Create_present DB⟩
  · intro users pID uIDs
    rw [updateUser_store]
    exact loop_nodup pID uIDs _ h
  · intro m name
    rw [updateUserProject_decoded]
    split
    · refine ⟨_, rfl, ?_⟩
      rw [updateUser_store]
      exact loop_nodup _ _ _ h
    · split
      · exact ⟨_, rfl, h⟩
      · exact ⟨_, rfl, h⟩

/-- Witness of C6: "bob" is the one member of "alpha"; adding users 7, 7 and 8 to project 1
leaves a table without repeated pair. -/
theorem user_projects_nodup_preserved_witness :
    sampleStoreBobMember.user_projects.Nodup ∧
    (updateUser sampleStoreBobMember { Members := [] } 1 [7, 7, 8]).1.user_projects.Nodup :=
  ⟨by decide, (user_projects_nodup_preserved sampleStoreBobMember (by decide)).1 _ 1 [7, 7, 8]⟩

/-! ## Claims on the request handler -/

theorem checkUsers_fst_false (DB : Store) (m : Members)
    (h : ¬ ∀ k ∈ m.Members, ∃ r, existingUser DB k.Key r) : (checkUsers DB m).1 = false := by
  rw [Bool.eq_false_iff]
  intro ht
  exact h ((checkUsers_fst_iff DB m).1 ht)

theorem updateUserProject_of_missing_user (DB : Store) (m : Members) (name : String)
    (h : (checkUsers DB m).1 = false) :
    updateUserProject DB (some m) name = some (DB, 400, { Error := invalidRequest }) := by
  rw [updateUserProject_decoded, h]
  simp

/-- Counterexample to C7: project "missing" is not in the sample store and user "ghost"
is not either; the response is 400 with the generic error, not 404. -/
theorem updateUserProject_missing_project_responds_400 :
    (¬ ∃ r ∈ sampleStore.projects, r.ProjectName = "missing") ∧
    updateUserProject sampleStore (some { Members := [{ Key := "ghost" }] }) "missing" =
      some (sampleStore, 400, { Error := invalidRequest }) ∧
    updateUserProject sampleStore (some { Members := [{ Key := "ghost" }] }) "missing" ≠
      some (sampleStore, 404, { Error := "Project does not exist" }) := by
  decide

/-- C7 as amended: for a decoded request whose project name matches no project, the
response is 404 "Project does not exist" when every listed username names an existing
user (the empty list included), and 400 with the generic invalid-request error when
some listed username names no existing user; the store is left as it was. -/
theorem updateUserProject_project_missing (DB : Store) (m : Members) (name : String)
    (hproj : ¬ ∃ r ∈ DB.projects, r.ProjectName = name) :
    ((∀ k ∈ m.Members, ∃ r ∈ DB.users, r.DeletedAt = none ∧ r.UserName = k.Key) →
      updateUserProject DB (some m) name =
        some (DB, 404, { Error := "Project does not exist" })) ∧
    ((¬ ∀ k ∈ m.Members, ∃ r ∈ DB.users, r.DeletedAt = none ∧ r.UserName = k.Key) →
      updateUserProject DB (some m) name = some (DB, 400, { Error := invalidRequest })) := by
  constructor
  · intro hall
    have hu : (checkUsers DB m).1 = true := (checkUsers_fst_iff DB m).2 hall
    rw [updateUserProject_decoded, checkProject_missing DB name hproj, hu]
    simp
  · intro hsome
    exact updateUserProject_of_missing_user DB m name (checkUsers_fst_false DB m hsome)

/-- Witness of C7 as amended: no project of the sample store is named "missing"; a request
listing the existing user "bob" gets 404. -/
theorem updateUserProject_project_missing_witness :
    (¬ ∃ r ∈ sampleStore.projects, r.ProjectName = "missing") ∧
    updateUserProject sampleStore (some { Members := [{ Key := "bob" }] }) "missing" =
      some (sampleStore, 404, { Error := "Project does not exist" }) :=
  ⟨by decide,
    (updateUserProject_project_missing sampleStore { Members := [{ Key := "bob" }] } "missing"
      (by decide)).1 (by decide)⟩

/-- C8 at its failing input: project "alpha" exists, "bob" and "alice" both resolve, "bob"
is already a member. The insert of (7, 1) fails, the insert of (8, 1) succeeds and the
handler responds 200 "Added to project". -/
theorem updateUserProject_responds_200_after_failed_insert :
    checkProject sampleStoreBobMember "alpha" = (true, 1) ∧
    checkUsers sampleStoreBobMember { Members := [{ Key := "bob" }, { Key := "alice" }] } =
      (true, [7, 8]) ∧
    (Create sampleStoreBobMember { UserID := 7, ProjectID := 1 }).2 =
      some DBError.uniqueViolation ∧
    updateUserProject sampleStoreBobMember
        (some { Members := [{ Key := "bob" }, { Key := "alice" }] }) "alpha" =
      some ({ sampleStoreBobMember with
              user_projects := [{ UserID := 7, ProjectID := 1 }, { UserID := 8, ProjectID := 1 }],
              created := [{ UserID := 7, ProjectID := 1 }, { UserID := 8, ProjectID := 1 }] },
            200, { Success := "Added to project" }) := by
  decide

/-- C9: when the project named in the request exists with identifier `p`, the listed
usernames are pairwise distinct, each names an existing user and no user so named is
a member of `p` yet, `updateUserProject` responds 200 with success message "Added to
project", and the association table afterwards is the table before followed by one row
`(id, p)` for each listed username, in order, `id` being the identifier of an existing
user of that name; users and projects are unchanged. User identifiers are the primary
key of table `users`. -/
theorem updateUserProject_happy_path (DB : Store) (m : Members) (name : String) (p : Int)
    (hpk : (DB.users.map User.ID).Nodup)
    (hproj : ∃ r ∈ DB.projects, r.ProjectName = name)
    (hp : ∀ r ∈ DB.projects, r.ProjectName = name → r.ID = p)
    (hdistinct : (m.Members.map Member.Key).Nodup)
    (hexist : ∀ k ∈ m.Members, ∃ r ∈ DB.users, r.DeletedAt = none ∧ r.UserName = k.Key)
    (hnew : ∀ k ∈ m.Members, ∀ r ∈ DB.users, r.DeletedAt = none ∧ r.UserName = k.Key →
      ({ UserID := r.ID, ProjectID := p } : UserProjects) ∉ DB.user_projects) :
    ∃ ids : List Int,
      List.Forall₂
        (fun k id => ∃ r ∈ DB.users, (r.DeletedAt = none ∧ r.UserName = k.Key) ∧ r.ID = id)
        m.Members ids ∧
      updateUserProject DB (some m) name =
        some ({ DB with
                user_projects :=
                  DB.user_projects ++ ids.map (fun id => { UserID := id, ProjectID := p }),
                created := DB.created ++ ids.map (fun id => { UserID := id, ProjectID := p }) },
              200, { Success := "Added to project" }) := by
  refine ⟨m.Members.map (fun k => userID DB k.Key), ?_, ?_⟩
  · rw [List.forall₂_map_right_iff, List.forall₂_same]
    intro k hk
    obtain ⟨r, hr, -, hid⟩ := userID_of_existing DB k.Key (hexist k hk)
    exact ⟨r, hr.1, hr.2, hid.symm⟩
  · obtain ⟨r, hr, hn, -, hcp⟩ := checkProject_found DB name hproj
    rw [hp r hr hn] at hcp
    have hu : (checkUsers DB m).1 = true := (checkUsers_fst_iff DB m).2 hexist
    have hids : (checkUsers DB m).2 = m.Members.map (fun k => userID DB k.Key) := by
      rw [checkUsers_eq]
    have hnd : (m.Members.map (fun k => userID DB k.Key)).Nodup := by
      refine List.Nodup.map_on ?_ (List.Nodup.of_map _ hdistinct)
      intro k1 hk1 k2 hk2 heq
      obtain ⟨r1, hr1, -, hid1⟩ := userID_of_existing DB k1.Key (hexist k1 hk1)
      obtain ⟨r2, hr2, -, hid2⟩ := userID_of_existing DB k2.Key (hexist k2 hk2)
      have hrr : r1 = r2 :=
        List.inj_on_of_nodup_map hpk hr1.1 hr2.1 (by rw [← hid1, ← hid2]; exact heq)
      have hkey : k1.Key = k2.Key := by
        rw [← hr1.2.2, ← hr2.2.2, hrr]
      cases k1
      cases k2
      simp only at hkey
      rw [hkey]
    have hfresh : ∀ u ∈ m.Members.map (fun k => userID DB k.Key),
        association p u ∉ (DB, (none : Option DBError)).1.user_projects := by
      intro u hu'
      obtain ⟨k, hk, rfl⟩ := List.mem_map.1 hu'
      obtain ⟨r, hr', -, hid⟩ := userID_of_existing DB k.Key (hexist k hk)
      rw [hid]
      exact hnew k hk r hr'.1 hr'.2
    have hloop := loop_fresh p _ (DB, none) hnd hfresh
    rw [updateUserProject_decoded, hcp, hu, hids]
    simp only [Bool.and_self, if_true]
    unfold updateUser
    simp only [hloop]
    by_cases hnil : m.Members.map (fun k => userID DB k.Key) = [] <;> simp [hnil, association]

/-- Witness of C9 (scenario A): "alpha" has identifier 1, "bob" has identifier 7 and is
not a member; the request adds row (7, 1) and gets 200. -/
theorem updateUserProject_happy_path_witness :
    ∃ ids : List Int,
      List.Forall₂
        (fun k id => ∃ r ∈ sampleStore.users, (r.DeletedAt = none ∧ r.UserName = k.Key) ∧ r.ID = id)
        [({ Key := "bob" } : Member)] ids ∧
      updateUserProject sampleStore (some { Members := [{ Key := "bob" }] }) "alpha" =
        some ({ sampleStore with
                user_projects :=
                  sampleStore.user_projects ++ ids.map (fun id => { UserID := id, ProjectID := 1 }),
                created :=
                  sampleStore.created ++ ids.map (fun id => { UserID := id, ProjectID := 1 }) },
              200, { Success := "Added to project" }) :=
  updateUserProject_happy_path sampleStore { Members := [{ Key := "bob" }] } "alpha" 1
    (by decide) (by decide) (by decide) (by decide) (by decide) (by decide)

/-- Counterexample to C10: "alpha" exists, "bob" exists and "ghost" does not. `checkUsers`
returns the list [7, 0], but the handler responds 400 without calling `updateUser`: the
trace of inserts is empty afterwards and row (0, 1) was handed to no insert. -/
theorem updateUserProject_missing_user_attempts_no_insert :
    checkProject sampleStore "alpha" = (true, 1) ∧
    checkUsers sampleStore { Members := [{ Key := "bob" }, { Key := "ghost" }] } =
      (false, [7, 0]) ∧
    ∃ out, updateUserProject sampleStore
        (some { Members := [{ Key := "bob" }, { Key := "ghost" }] }) "alpha" = some out ∧
      out.1.created = [] ∧ out.1.user_projects = [] ∧
      ({ UserID := 0, ProjectID := 1 } : UserProjects) ∉ out.1.created ∧ out.2.1 = 400 :=
  ⟨by decide, by decide, _, rfl, by decide⟩

/-- C10 as amended: when some listed username names no existing user, `checkUsers` reports
`false` and its identifier list does hold the placeholder 0, but `updateUserProject`
responds 400 with the generic invalid-request error without calling `updateUser`: the
store, trace of inserts included, is returned as it was, whether the project exists or
not. -/
theorem updateUserProject_missing_user_no_insert (DB : Store) (m : Members) (name : String)
    (hmiss : ∃ k ∈ m.Members, ¬ ∃ r ∈ DB.users, r.DeletedAt = none ∧ r.UserName = k.Key) :
    (checkUsers DB m).1 = false ∧ 0 ∈ (checkUsers DB m).2 ∧
    updateUserProject DB (some m) name = some (DB, 400, { Error := invalidRequest }) := by
  obtain ⟨k, hk, hno⟩ := hmiss
  have hf : (checkUsers DB m).1 = false :=
    checkUsers_fst_false DB m (fun hall => hno (hall k hk))
  refine ⟨hf, ?_, updateUserProject_of_missing_user DB m name hf⟩
  rw [checkUsers_eq]
  exact List.mem_map.2 ⟨k, hk, userID_of_missing DB k.Key hno⟩

/-- Witness of C10 as amended: "ghost" names no user of the sample store; the request for
"bob" and "ghost" on "alpha" gets 400 and the store is unchanged. -/
theorem updateUserProject_missing_user_no_insert_witness :
    (checkUsers sampleStore { Members := [{ Key := "bob" }, { Key := "ghost" }] }).1 = false ∧
    0 ∈ (checkUsers sampleStore { Members := [{ Key := "bob" }, { Key := "ghost" }] }).2 ∧
    updateUserProject sampleStore
        (some { Members := [{ Key := "bob" }, { Key := "ghost" }] }) "alpha" =
      some (sampleStore, 400, { Error := invalidRequest }) :=
  updateUserProject_missing_user_no_insert sampleStore
    { Members := [{ Key := "bob" }, { Key := "ghost" }] } "alpha"
    ⟨{ Key := "ghost" }, by decide, by decide⟩

end Portyard
